import Mathlib

/-! Verification development for the WebCut browser extension.
The definitions below are a shallow embedding of the page-capture script
(content script) and the background service worker: the regex-driven
HTML-snapshot normalization, the canvas/image asset pipeline, and the
relay operations sendToApi / checkApiStatus. Asynchronous browser
primitives (fetch, image loading, canvas serialization) are modelled by
explicit outcome parameters. -/

namespace WebCut

/-- Pointwise case-insensitive comparison of a document word `w` against a
lowercase pattern word, mirroring the semantics of the `/i` flag on the
source regexes (`/<base[^>]*>/i` etc.). -/
def ciEq : List Char → List Char → Bool
  | [], [] => true
  | p :: ps, c :: cs => if c.toLower = p then ciEq ps cs else false
  | _, _ => false

/-- Consume a case-insensitive occurrence of the pattern word from the front
of `l`, returning the consumed document word and the remainder. -/
def matchPrefixCI : List Char → List Char → Option (List Char × List Char)
  | [], l => some ([], l)
  | _ :: _, [] => none
  | p :: ps, c :: cs =>
    if c.toLower = p then
      match matchPrefixCI ps cs with
      | some (w, rest) => some (c :: w, rest)
      | none => none
    else none

/-- Split `l` at its first '>' into the (gt-free) part before it and the part
after it; `none` when `l` has no '>' at all.  This is exactly how the greedy
`[^>]*>` tail of the source regexes consumes input. -/
def splitAtGt : List Char → Option (List Char × List Char)
  | [] => none
  | c :: cs =>
    if c = '>' then some ([], cs)
    else
      match splitAtGt cs with
      | some (mid, after) => some (c :: mid, after)
      | none => none

/-- Match of the pattern `<tag[^>]*>` anchored at the head of `l`: returns the
matched segment and the rest of the input. -/
def matchTagAt (tag : List Char) : List Char → Option (List Char × List Char)
  | [] => none
  | c :: cs =>
    if c = '<' then
      match matchPrefixCI tag cs with
      | none => none
      | some (w, rest) =>
        match splitAtGt rest with
        | none => none
        | some (mid, after) => some ('<' :: (w ++ (mid ++ ['>'])), after)
    else none

/-- Leftmost match of `<tag[^>]*>` in `l`: returns the text before the match,
the matched segment, and the text after it.  This is the search performed by
`RegExp.test` and by `String.replace` with a non-global regex. -/
def findTag (tag : List Char) : List Char → Option (List Char × List Char × List Char)
  | [] => none
  | c :: cs =>
    match matchTagAt tag (c :: cs) with
    | some (m, rest) => some ([], m, rest)
    | none =>
      match findTag tag cs with
      | some (p, m, s) => some (c :: p, m, s)
      | none => none

/-- `baseTagRegex.test(html)` / `headTagRegex.test(html)` / `htmlTagRegex.test(html)`. -/
def testTag (tag : String) (html : String) : Bool :=
  (findTag tag.data html.data).isSome

/-- `html.replace(regex, (match) => match + ins)` with a non-global regex:
the first match of `<tag[^>]*>` is kept and `ins` is inserted right after it;
the string is unchanged when there is no match. -/
def replaceFirstTag (tag : String) (html : String) (ins : String) : String :=
  match findTag tag.data html.data with
  | none => html
  | some (p, m, s) => ⟨p ++ m ++ ins.data ++ s⟩

/-- Fuel-driven count of the non-overlapping leftmost matches of `<tag[^>]*>`. -/
def countTagFuel (tag : List Char) : Nat → List Char → Nat
  | 0, _ => 0
  | Nat.succ fuel, l =>
    match findTag tag l with
    | none => 0
    | some (_, _, s) => 1 + countTagFuel tag fuel s

/-- Number of non-overlapping leftmost matches of `<tag[^>]*>` in `l`
(the fuel `l.length` always suffices). -/
def countTag (tag : List Char) (l : List Char) : Nat :=
  countTagFuel tag l.length l

/-- `pat` matches at the head of `l` (exact characters). -/
def prefixMatch : List Char → List Char → Bool
  | [], _ => true
  | _ :: _, [] => false
  | p :: ps, c :: cs => p == c && prefixMatch ps cs

/-- `l` contains `pat` as a contiguous substring, scanning left to right. -/
def containsPat (pat : List Char) : List Char → Bool
  | [] => prefixMatch pat []
  | c :: cs => prefixMatch pat (c :: cs) || containsPat pat cs

/-- JS `s.includes(pat)`. -/
def strContains (s pat : String) : Bool := containsPat pat.data s.data

/-- JS `s.startsWith(pre)`. -/
def strStartsWith (s pre : String) : Bool := prefixMatch pre.data s.data

/-- JS `s.substring(0, n)`. -/
def strTake (s : String) (n : Nat) : String := ⟨s.data.take n⟩

/-- The parts of `window.location` read by the capture script.  `protocol`
carries its trailing colon, as in the DOM API (e.g. "https:").  `search`
(query) and `hash` (fragment) are never read by the snapshot logic. -/
structure Location where
  protocol : String
  host : String
  pathname : String
  search : String
  hash : String

/-- `window.location.protocol + "//" + window.location.host + window.location.pathname`. -/
def baseHrefStr (loc : Location) : String :=
  loc.protocol ++ "//" ++ loc.host ++ loc.pathname

/-- The injected base directive text. -/
def baseDirective (loc : Location) : String :=
  "<base href=\"" ++ baseHrefStr loc ++ "\">"

/-- `generateHtmlSnapshot` from the content script, as a function of the
current location and of the serialized document `document.documentElement.outerHTML`. -/
def generateHtmlSnapshot (loc : Location) (html : String) : String :=
  let hasBaseTag := testTag "base" html
  if hasBaseTag = true then
    html
  else
    if testTag "head" html = true then
      replaceFirstTag "head" html ("\n" ++ baseDirective loc)
    else
      if testTag "html" html = true then
        replaceFirstTag "html" html ("\n<head>" ++ baseDirective loc ++ "</head>")
      else
        html

/-- An asset harvested by the capture script: the `type` tag of the JSON
object is reflected in the constructor name. -/
inductive Asset
  | canvas_chart (base64 : String) (width height : Nat)
  | image (base64 : Option String) (src_url : Option String) (width height : Nat)
deriving DecidableEq

/-- Outcome of `canvas.toDataURL("image/png")`: either a data URL, or a
thrown exception (the SecurityError raised for a cross-origin-tainted canvas). -/
inductive ToDataURLResult
  | ok (dataURL : String)
  | securityError
deriving DecidableEq

/-- The parts of a canvas element read by `processCanvas`. -/
structure Canvas where
  width : Nat
  height : Nat
  toDataURL : ToDataURLResult

/-- Outcome of the race between the image load signals and the 5-second
timer, for an image whose `complete` flag is false: `loads` when `onload`
fires first, `fails` when `onerror` fires first, `timesOut` when the timer
rejects first. -/
inductive LoadResult
  | loads
  | fails
  | timesOut
deriving DecidableEq

/-- Outcome of `imageUrlToBase64(src)`: a data URL on success, or the thrown
error message on fetch/conversion failure (e.g. a CORS rejection). -/
inductive FetchBase64Result
  | ok (b64 : String)
  | err (msg : String)
deriving DecidableEq

/-- The parts of an img element read by `processImage`, together with the
outcomes of the asynchronous browser interactions it may perform. -/
structure Img where
  complete : Bool
  load : LoadResult
  srcProp : String
  srcAttr : Option String
  naturalWidth : Nat
  naturalHeight : Nat
  fetch : FetchBase64Result

/-- `img.src || img.getAttribute('src') || ''` (empty strings and a null
attribute are falsy). -/
def resolvedSrc (img : Img) : String :=
  if img.srcProp = "" then img.srcAttr.getD "" else img.srcProp

/-- `console.warn` text of the tainted-canvas handler. -/
def warnCanvasTaint : String := "Canvas 跨域污染，跳过:"

/-- `console.warn` text of the URL-only image fallback. -/
def warnImgFallback : String := "无法获取图片 base64，保留 URL:"

/-- `console.warn` text of the image-skipping catch handler. -/
def warnImgSkip : String := "处理图片时出错，跳过:"

/-- `processCanvas` from the content script: the produced asset (if any)
paired with the emitted console warnings. -/
def processCanvas (c : Canvas) : Option Asset × List String :=
  if c.width = 0 ∨ c.height = 0 then
    (none, [])
  else
    match c.toDataURL with
    | .ok dataURL => (some (Asset.canvas_chart dataURL c.width c.height), [])
    | .securityError => (none, [warnCanvasTaint])

/-- The part of `processImage` reached once the image is known to be loaded
(`complete` already true, or the load promise resolved). -/
def processImageLoaded (img : Img) : Option Asset × List String :=
  let src := resolvedSrc img
  let isBase64 := strStartsWith src "data:image/"
  let isLargeEnough := decide (300 ≤ img.naturalWidth) && decide (300 ≤ img.naturalHeight)
  if !isBase64 && !isLargeEnough then
    (none, [])
  else
    if isBase64 then
      (some (Asset.image (some src) none img.naturalWidth img.naturalHeight), [])
    else
      match img.fetch with
      | .ok b64 =>
        (some (Asset.image (some b64) (some src) img.naturalWidth img.naturalHeight), [])
      | .err _ =>
        (some (Asset.image none (some src) img.naturalWidth img.naturalHeight), [warnImgFallback])

/-- `processImage` from the content script: an incomplete image whose load
promise rejects (error or 5s timeout) is caught, logged and skipped;
otherwise processing continues on the loaded image. -/
def processImage (img : Img) : Option Asset × List String :=
  match img.complete, img.load with
  | false, .fails => (none, [warnImgSkip])
  | false, .timesOut => (none, [warnImgSkip])
  | _, _ => processImageLoaded img

/-- The push-loop of `extractAssets` over one element class: assets of the
elements in document order (skipped elements contribute nothing), paired
with the concatenated warnings. -/
def pushAssets {α : Type} (f : α → Option Asset × List String) : List α → List Asset × List String
  | [] => ([], [])
  | x :: xs =>
    let r := f x
    let rest := pushAssets f xs
    (match r.1 with
     | some a => a :: rest.1
     | none => rest.1,
     r.2 ++ rest.2)

/-- `extractAssets` from the content script, as a function of the canvas and
img element lists returned (in document order) by `querySelectorAll`. -/
def extractAssets (canvases : List Canvas) (imgs : List Img) : List Asset × List String :=
  let c := pushAssets processCanvas canvases
  let i := pushAssets processImage imgs
  (c.1 ++ i.1, c.2 ++ i.2)

/-- Abstract model of a decoded JSON document; `emptyObj` models the `{}`
substituted when `response.json()` fails to decode. -/
inductive JsonValue
  | emptyObj
  | parsed (raw : String)
deriving DecidableEq

/-- The parts of a fetch `Response` read by the background worker.
`textResult` is `none` when `response.text()` rejects; `jsonResult` is `none`
when `response.json()` rejects. -/
structure HttpResponse where
  ok : Bool
  status : Nat
  textResult : Option String
  jsonResult : Option JsonValue

/-- Outcome of the `fetch` call in `sendToApi`: a resolved response, or a
rejection carrying the error message (e.g. the browser's
"Failed to fetch" / "NetworkError when attempting to fetch resource."). -/
inductive FetchResult
  | resolved (r : HttpResponse)
  | rejected (errMessage : String)

/-- Fallback body text: `'无法读取错误信息'` substituted when `response.text()` rejects. -/
def placeholderBodyMsg : String := "无法读取错误信息"

/-- The `errorData` local of `sendToApi`. -/
def errorDataOf (r : HttpResponse) : String :=
  r.textResult.getD placeholderBodyMsg

/-- The part of the non-ok error message that precedes the body text. -/
def apiPrefix (status : Nat) : String :=
  "API 返回错误 (" ++ Nat.repr status ++ "): "

/-- The message of the error thrown for a non-ok response:
``API 返回错误 (${response.status}): ${errorData.substring(0, 100)}``. -/
def apiErrorMsg (status : Nat) (errorData : String) : String :=
  apiPrefix status ++ strTake errorData 100

/-- The normalized low-level network failure message thrown by `sendToApi`. -/
def networkErrMsg : String :=
  "无法连接到 API，请检查：\n1. 后端服务是否运行\n2. API Endpoint 是否正确\n3. 网络连接是否正常"

/-- The try-block of `sendToApi`: a rejected fetch propagates its error; a
non-ok response throws the status-and-body message; an ok response yields the
decoded JSON body, `{}` when decoding fails. -/
def sendToApiTryBlock : FetchResult → Except String JsonValue
  | .rejected msg => .error msg
  | .resolved r =>
    if r.ok = false then
      .error (apiErrorMsg r.status (errorDataOf r))
    else
      .ok (r.jsonResult.getD JsonValue.emptyObj)

/-- `sendToApi` from the background worker: the catch-block replaces any
error whose message contains 'Failed to fetch' or 'NetworkError' by the
generic three-cause network message, and rethrows every other error. -/
def sendToApi (f : FetchResult) : Except String JsonValue :=
  match sendToApiTryBlock f with
  | .ok v => .ok v
  | .error msg =>
    if strContains msg "Failed to fetch" || strContains msg "NetworkError" then
      .error networkErrMsg
    else
      .error msg

/-- Outcome of the `OPTIONS` probe in `checkApiStatus`: a resolved response;
a rejected fetch promise (swallowed by the attached `.catch(() => null)`); or
a synchronous exception escaping into the outer try/catch. -/
inductive ProbeResult
  | resolved (r : HttpResponse)
  | rejected
  | thrown (msg : String)

/-- `checkApiStatus` from the background worker.  The inner `Option` is the
`response` local: `null` exactly when the fetch promise rejected. -/
def checkApiStatus (p : ProbeResult) : String :=
  match p with
  | .thrown _ => "failed"
  | _ =>
    let response : Option HttpResponse :=
      match p with
      | .resolved r => some r
      | _ => none
    match response with
    | some r => if r.ok = true ∨ r.status = 405 then "connected" else "unknown"
    | none => "unknown"

/-! Concrete sample values used by the witness theorems below. -/

/-- A sample current location (note the non-empty query and fragment). -/
def demoLoc : Location :=
  { protocol := "http:", host := "example.com", pathname := "/index.html",
    search := "?q=1", hash := "#top" }

/-- A sample document with a head marker and no base directive. -/
def demoHtmlHead : String :=
  "<html><head><title>T</title></head><body><p>x</p></body></html>"

/-- A sample document that already carries a base directive. -/
def demoHtmlWithBase : String :=
  "<html><head><base href=\"https://a/\"></head><body></body></html>"

/-- An 800x400 canvas whose serialization succeeds. -/
def demoCanvas : Canvas :=
  { width := 800, height := 400, toDataURL := .ok "data:image/png;base64,CHART" }

/-- A canvas tainted by cross-origin data: `toDataURL` throws. -/
def taintedCanvas : Canvas :=
  { width := 200, height := 100, toDataURL := .securityError }

/-- A zero-width canvas. -/
def zeroCanvas : Canvas :=
  { width := 0, height := 150, toDataURL := .ok "data:image/png;base64,EMPTY" }

/-- A loaded 320x320 image with a non-inline source whose fetch succeeds. -/
def demoImg : Img :=
  { complete := true, load := .loads, srcProp := "https://example.com/pic.png",
    srcAttr := none, naturalWidth := 320, naturalHeight := 320,
    fetch := .ok "data:image/png;base64,PIC" }

/-- A loaded image whose source is already an inline data URL. -/
def demoInlineImg : Img :=
  { complete := true, load := .loads, srcProp := "data:image/png;base64,INLINE",
    srcAttr := none, naturalWidth := 12, naturalHeight := 12,
    fetch := .err "never used" }

/-- A loaded large image whose remote fetch fails (CORS rejection). -/
def demoFallbackImg : Img :=
  { complete := true, load := .loads, srcProp := "https://cdn.example.com/big.png",
    srcAttr := none, naturalWidth := 500, naturalHeight := 400,
    fetch := .err "无法获取图片: CORS" }

/-- A loaded small non-inline image (an icon). -/
def demoSmallImg : Img :=
  { complete := true, load := .loads, srcProp := "https://example.com/icon.png",
    srcAttr := none, naturalWidth := 100, naturalHeight := 400,
    fetch := .ok "data:image/png;base64,ICON" }

/-- A 500 response whose body text happens to contain "NetworkError". -/
def r500ne : HttpResponse :=
  { ok := false, status := 500, textResult := some "NetworkError", jsonResult := none }

/-- The HTTP 500 "server error" response of the spec scenario. -/
def r500se : HttpResponse :=
  { ok := false, status := 500, textResult := some "server error", jsonResult := none }

/-- A 405 "method not supported" probe response. -/
def r405 : HttpResponse :=
  { ok := false, status := 405, textResult := none, jsonResult := none }

/-! General helper lemmas. -/

theorem strData_append (a b : String) : (a ++ b).data = a.data ++ b.data := by
  cases a
  cases b
  rfl

/-! C1.  The claim reads `checkApiStatus` as returning 'failed' when the probe
throws; but the fetch promise carries `.catch(() => null)`, so a
network-unreachable rejection produces a null response and the function
returns 'unknown'.  The 'failed' branch is reached only by an exception that
escapes that attached handler. -/

/-- C1 counterexample: a network-unreachable probe (rejected fetch promise,
swallowed by the attached null-fallback) is reported as 'unknown', not
'failed' as the claim states. -/
theorem checkApiStatus_rejected_counterexample :
    checkApiStatus ProbeResult.rejected = "unknown" ∧
    checkApiStatus ProbeResult.rejected ≠ "failed" := by
  exact ⟨rfl, by decide⟩

/-- C1 (amended): `checkApiStatus` returns 'connected' exactly when the probe
response has a success status or status 405; 'unknown' for a response with
any other status and for an absent response — including the null response
produced when a network-unreachable fetch rejection is swallowed by the
attached catch handler; and 'failed' only for an exception escaping that
handler. -/
theorem checkApiStatus_cases (r : HttpResponse) (m : String) :
    (checkApiStatus (ProbeResult.resolved r) = "connected" ↔
      (r.ok = true ∨ r.status = 405)) ∧
    (checkApiStatus (ProbeResult.resolved r) = "unknown" ↔
      ¬(r.ok = true ∨ r.status = 405)) ∧
    checkApiStatus ProbeResult.rejected = "unknown" ∧
    checkApiStatus (ProbeResult.thrown m) = "failed" := by
  refine ⟨?_, ?_, rfl, rfl⟩ <;>
    · by_cases h : r.ok = true ∨ r.status = 405 <;>
        simp [checkApiStatus, h]

/-- C1 witness: the spec's own 405 scenario, through `checkApiStatus_cases`. -/
theorem checkApiStatus_cases_witness :
    checkApiStatus (ProbeResult.resolved r405) = "connected" := by
  exact ((checkApiStatus_cases r405 "boom").1).mpr (Or.inr rfl)

/-! C4.  When the source document already has a base directive, the snapshot
is returned exactly as serialized. -/

/-- C4: for a document already containing a base directive (case-insensitive
tag-pattern match), `generateHtmlSnapshot` returns the snapshot completely
unchanged — in particular base-directive count and position are preserved
and the existing directive is neither duplicated nor altered. -/
theorem generateHtmlSnapshot_preserves_existing_base (loc : Location) (html : String)
    (h : testTag "base" html = true) :
    generateHtmlSnapshot loc html = html ∧
    countTag "base".data (generateHtmlSnapshot loc html).data =
      countTag "base".data html.data := by
  have heq : generateHtmlSnapshot loc html = html := by
    unfold generateHtmlSnapshot
    simp [h]
  exact ⟨heq, by rw [heq]⟩

/-- C4 witness: a concrete document with an existing base directive. -/
theorem generateHtmlSnapshot_preserves_existing_base_witness :
    testTag "base" demoHtmlWithBase = true ∧
    generateHtmlSnapshot demoLoc demoHtmlWithBase = demoHtmlWithBase := by
  exact ⟨by decide,
    (generateHtmlSnapshot_preserves_existing_base demoLoc demoHtmlWithBase (by decide)).1⟩

/-! Asset-pipeline lemmas. -/

theorem pushAssets_fst_filterMap {α : Type} (f : α → Option Asset × List String) :
    ∀ l : List α, (pushAssets f l).1 = l.filterMap fun x => (f x).1 := by
  intro l
  induction l with
  | nil => rfl
  | cons x xs ih =>
    simp only [pushAssets, List.filterMap_cons]
    cases hfx : (f x).1 <;> simp [hfx, ih]

/-- How `processImage` reduces: either the image is skipped at the loading
stage, or the loaded-image logic runs. -/
theorem processImage_reduce (img : Img) :
    (img.complete = false ∧
        (img.load = LoadResult.fails ∨ img.load = LoadResult.timesOut) ∧
        processImage img = (none, [warnImgSkip])) ∨
      processImage img = processImageLoaded img := by
  rcases img with ⟨co, lo, sp, sa, w, h, f⟩
  cases co <;> cases lo <;> simp [processImage]

/-! C5.  Canvas skipping: zero-dimension canvases and canvases whose
serialization throws a security fault contribute nothing, do not abort the
capture, and the tainted case logs a warning. -/

/-- C5: a canvas with width 0 or height 0 emits no asset; a nonzero-dimension
canvas whose `toDataURL` throws a security fault is excluded with the tainted
warning logged and no placeholder asset; and any canvas that emits no asset
leaves the assets of all sibling elements (and hence the overall capture)
untouched. -/
theorem processCanvas_skip (c : Canvas) :
    ((c.width = 0 ∨ c.height = 0) → processCanvas c = (none, [])) ∧
    (¬(c.width = 0 ∨ c.height = 0) →
      c.toDataURL = ToDataURLResult.securityError →
      processCanvas c = (none, [warnCanvasTaint])) ∧
    ((processCanvas c).1 = none →
      ∀ (pre post : List Canvas) (imgs : List Img),
        (extractAssets (pre ++ c :: post) imgs).1 =
          (extractAssets (pre ++ post) imgs).1) := by
  refine ⟨?_, ?_, ?_⟩
  · intro h
    unfold processCanvas
    rw [if_pos h]
  · intro h htd
    unfold processCanvas
    rw [if_neg h, htd]
  · intro h pre post imgs
    simp only [extractAssets, pushAssets_fst_filterMap, List.filterMap_append,
      List.filterMap_cons, h]

/-- C5 witness: a concrete tainted canvas, skipped with a logged warning and
with its sibling canvas still captured. -/
theorem processCanvas_skip_witness :
    processCanvas zeroCanvas = (none, []) ∧
    processCanvas taintedCanvas = (none, [warnCanvasTaint]) ∧
    (extractAssets [demoCanvas, taintedCanvas] []).1 =
      (extractAssets [demoCanvas] []).1 := by
  refine ⟨?_, ?_, ?_⟩
  · exact (processCanvas_skip zeroCanvas).1 (by decide)
  · exact (processCanvas_skip taintedCanvas).2.1 (by decide) (by decide)
  · exact (processCanvas_skip taintedCanvas).2.2 (by decide) [demoCanvas] [] []

/-! C6.  Image inclusion filter. -/

/-- C6: an image whose resolved source is not inline-encoded and whose
natural dimensions are not both at least 300 emits no asset; conversely an
asset is emitted only when the source is inline-encoded or both natural
dimensions are at least 300. -/
theorem processImage_inclusion_filter (img : Img) :
    (strStartsWith (resolvedSrc img) "data:image/" = false →
      (img.naturalWidth < 300 ∨ img.naturalHeight < 300) →
      (processImage img).1 = none) ∧
    (∀ a, (processImage img).1 = some a →
      strStartsWith (resolvedSrc img) "data:image/" = true ∨
        (300 ≤ img.naturalWidth ∧ 300 ≤ img.naturalHeight)) := by
  have hnone : strStartsWith (resolvedSrc img) "data:image/" = false →
      (img.naturalWidth < 300 ∨ img.naturalHeight < 300) →
      (processImageLoaded img).1 = none := by
    intro hb hdim
    have hsmall : (decide (300 ≤ img.naturalWidth) &&
        decide (300 ≤ img.naturalHeight)) = false := by
      rcases hdim with h1 | h1 <;> simp [Nat.not_le.mpr h1]
    unfold processImageLoaded
    simp [hb, hsmall]
  constructor
  · intro hb hdim
    rcases processImage_reduce img with ⟨_, _, hred⟩ | hred
    · rw [hred]
    · rw [hred]
      exact hnone hb hdim
  · intro a ha
    rcases processImage_reduce img with ⟨_, _, hred⟩ | hred
    · rw [hred] at ha
      cases ha
    · rw [hred] at ha
      by_cases hb : strStartsWith (resolvedSrc img) "data:image/" = true
      · exact Or.inl hb
      · have hb' : strStartsWith (resolvedSrc img) "data:image/" = false := by
          cases hx : strStartsWith (resolvedSrc img) "data:image/"
          · rfl
          · exact absurd hx hb
        right
        constructor
        · by_contra hw
          rw [hnone hb' (Or.inl (by omega))] at ha
          exact Option.noConfusion ha
        · by_contra hh
          rw [hnone hb' (Or.inr (by omega))] at ha
          exact Option.noConfusion ha

/-- C6 witness: a concrete 100x400 non-inline image emits no asset. -/
theorem processImage_inclusion_filter_witness :
    strStartsWith (resolvedSrc demoSmallImg) "data:image/" = false ∧
    (processImage demoSmallImg).1 = none := by
  exact ⟨by decide,
    (processImage_inclusion_filter demoSmallImg).1 (by decide) (Or.inl (by decide))⟩

/-! C7.  Inline-source images are emitted verbatim. -/

/-- C7: for an image whose resolved source is already inline-encoded, any
emitted asset carries exactly the original source string in `base64`, no
`src_url`, and the image's natural dimensions; and the whole result is
independent of the remote-fetch outcome — no network fetch is performed. -/
theorem processImage_inline_roundtrip (img : Img)
    (hb : strStartsWith (resolvedSrc img) "data:image/" = true) :
    (∀ a, (processImage img).1 = some a →
      a = Asset.image (some (resolvedSrc img)) none img.naturalWidth img.naturalHeight) ∧
    (∀ f₁ f₂ : FetchBase64Result,
      processImage { img with fetch := f₁ } = processImage { img with fetch := f₂ }) := by
  constructor
  · intro a ha
    rcases processImage_reduce img with ⟨_, _, hred⟩ | hred
    · rw [hred] at ha
      exact Option.noConfusion ha
    · rw [hred] at ha
      unfold processImageLoaded at ha
      simp only [hb, Bool.not_true, Bool.false_and, Bool.false_eq_true, if_false,
        if_true, ite_true, ite_false] at ha
      simp at ha
      exact ha.symm
  · intro f₁ f₂
    rcases img with ⟨co, lo, sp, sa, w, h, f⟩
    simp only [resolvedSrc] at hb
    cases co <;> cases lo <;>
      simp [processImage, processImageLoaded, resolvedSrc, hb]

/-- C7 witness: a concrete inline image round-trips its source. -/
theorem processImage_inline_roundtrip_witness :
    (processImage demoInlineImg).1 =
      some (Asset.image (some (resolvedSrc demoInlineImg)) none
        demoInlineImg.naturalWidth demoInlineImg.naturalHeight) ∧
    processImage { demoInlineImg with fetch := .err "a" } =
      processImage { demoInlineImg with fetch := .ok "b" } := by
  constructor
  · have h := (processImage_inline_roundtrip demoInlineImg (by decide)).1
    have hx : (processImage demoInlineImg).1 =
        some (Asset.image (some "data:image/png;base64,INLINE") none 12 12) := by decide
    rw [hx, h _ hx]
  · exact (processImage_inline_roundtrip demoInlineImg (by decide)).2 (.err "a") (.ok "b")

/-! C8.  URL-only fallback for failed remote fetches. -/

/-- C8: a loaded, qualifying (non-inline, both dimensions at least 300) image
whose remote fetch or conversion fails is emitted as a degraded asset with
`src_url` set and `base64` absent, with the fallback warning logged; the
degraded asset still appears in the capture's asset list, so the overall
capture does not fail. -/
theorem processImage_fetch_failure_fallback (img : Img)
    (hload : img.complete = true ∨ img.load = LoadResult.loads)
    (hni : strStartsWith (resolvedSrc img) "data:image/" = false)
    (hw : 300 ≤ img.naturalWidth) (hh : 300 ≤ img.naturalHeight)
    (emsg : String) (hf : img.fetch = FetchBase64Result.err emsg) :
    processImage img =
      (some (Asset.image none (some (resolvedSrc img)) img.naturalWidth img.naturalHeight),
        [warnImgFallback]) ∧
    ∀ (pre post : List Img) (canvases : List Canvas),
      Asset.image none (some (resolvedSrc img)) img.naturalWidth img.naturalHeight ∈
        (extractAssets canvases (pre ++ img :: post)).1 := by
  have hloaded : processImage img = processImageLoaded img := by
    rcases processImage_reduce img with ⟨hco, hlo, _⟩ | hred
    · exfalso
      rcases hload with h | h
      · rw [hco] at h
        exact Bool.noConfusion h
      · rcases hlo with hl | hl <;> rw [hl] at h <;> exact LoadResult.noConfusion h
    · exact hred
  have hmain : processImage img =
      (some (Asset.image none (some (resolvedSrc img)) img.naturalWidth img.naturalHeight),
        [warnImgFallback]) := by
    rw [hloaded]
    unfold processImageLoaded
    simp [hni, hf, decide_eq_true hw, decide_eq_true hh]
  refine ⟨hmain, ?_⟩
  intro pre post canvases
  simp [extractAssets, pushAssets_fst_filterMap, List.filterMap_append,
    List.filterMap_cons, hmain]

/-- C8 witness: a concrete large image whose fetch fails is captured
URL-only, and lands in the asset list of a one-canvas one-image page. -/
theorem processImage_fetch_failure_fallback_witness :
    processImage demoFallbackImg =
      (some (Asset.image none (some "https://cdn.example.com/big.png") 500 400),
        [warnImgFallback]) ∧
    Asset.image none (some "https://cdn.example.com/big.png") 500 400 ∈
      (extractAssets [demoCanvas] [demoFallbackImg]).1 := by
  have h := processImage_fetch_failure_fallback demoFallbackImg (Or.inl (by decide))
    (by decide) (by decide) (by decide) "无法获取图片: CORS" (by decide)
  exact ⟨h.1, h.2 [] [] [demoCanvas]⟩

/-! C9.  Asset ordering: canvases before images, each in document order. -/

/-- C9: the asset sequence of `extractAssets` is exactly the emitted canvas
assets (in document order) followed by the emitted image assets (in document
order); the spec scenario — one 800x400 canvas and one 320x320 non-inline
reachable image — yields exactly two assets, canvas_chart then image. -/
theorem extractAssets_ordered (canvases : List Canvas) (imgs : List Img) :
    (extractAssets canvases imgs).1 =
      (canvases.filterMap fun c => (processCanvas c).1) ++
        (imgs.filterMap fun i => (processImage i).1) ∧
    (extractAssets [demoCanvas] [demoImg]).1 =
      [Asset.canvas_chart "data:image/png;base64,CHART" 800 400,
       Asset.image (some "data:image/png;base64,PIC")
         (some "https://example.com/pic.png") 320 320] := by
  constructor
  · simp [extractAssets, pushAssets_fst_filterMap]
  · decide

/-- C9 witness: the scenario instance, through `extractAssets_ordered`. -/
theorem extractAssets_ordered_witness :
    (extractAssets [demoCanvas] [demoImg]).1 =
      [Asset.canvas_chart "data:image/png;base64,CHART" 800 400,
       Asset.image (some "data:image/png;base64,PIC")
         (some "https://example.com/pic.png") 320 320] :=
  (extractAssets_ordered [] []).2

/-! String-containment lemmas relating the Boolean scanners to the
`IsPrefix` / `IsInfix` relations. -/

theorem prefixMatch_iff : ∀ (pat l : List Char), prefixMatch pat l = true ↔ pat <+: l
  | [], l => by simp [prefixMatch]
  | p :: ps, [] => by simp [prefixMatch]
  | p :: ps, c :: cs => by
    simp [prefixMatch, List.cons_prefix_cons, prefixMatch_iff ps cs, beq_iff_eq]

theorem containsPat_iff : ∀ (pat l : List Char), containsPat pat l = true ↔ pat <:+: l
  | pat, [] => by
    simp [containsPat, prefixMatch_iff]
  | pat, c :: cs => by
    simp [containsPat, prefixMatch_iff, containsPat_iff pat cs, List.infix_cons_iff]

theorem containsPat_cons_append (q : Char) (qs a b : List Char) (hq : q ∉ a) :
    containsPat (q :: qs) (a ++ b) = containsPat (q :: qs) b := by
  induction a with
  | nil => rfl
  | cons c a' ih =>
    have hqc : (q == c) = false := by
      have : q ≠ c := fun h => hq (h ▸ List.mem_cons_self c a')
      simpa using this
    have hq' : q ∉ a' := fun h => hq (List.mem_cons_of_mem _ h)
    simp only [List.cons_append, containsPat, prefixMatch, hqc, Bool.false_and,
      Bool.false_or]
    exact ih hq'

/-! The decimal representation of a status code consists of digit characters
only; hence neither 'F' nor 'N' can occur in the fixed prefix of the non-ok
error message, and a network-substring occurrence in that message must lie
entirely inside the truncated body text. -/

theorem digitChar_isDigit : ∀ k : Nat, k < 10 → (Nat.digitChar k).isDigit = true := by
  decide

theorem toDigitsCore_digits : ∀ (fuel n : Nat) (ds : List Char),
    (∀ c ∈ ds, c.isDigit = true) →
    ∀ c ∈ Nat.toDigitsCore 10 fuel n ds, c.isDigit = true := by
  intro fuel
  induction fuel with
  | zero =>
    intro n ds h c hc
    simp only [Nat.toDigitsCore] at hc
    exact h c hc
  | succ f ih =>
    intro n ds h c hc
    have hds : ∀ x ∈ Nat.digitChar (n % 10) :: ds, x.isDigit = true := by
      intro x hx
      rcases List.mem_cons.mp hx with rfl | hx
      · exact digitChar_isDigit _ (Nat.mod_lt _ (by decide))
      · exact h x hx
    simp only [Nat.toDigitsCore] at hc
    by_cases hz : n / 10 = 0
    · rw [if_pos hz] at hc
      exact hds c hc
    · rw [if_neg hz] at hc
      exact ih (n / 10) _ hds c hc

theorem repr_digits (n : Nat) : ∀ c ∈ (Nat.repr n).data, c.isDigit = true := by
  intro c hc
  have hd : (Nat.repr n).data = Nat.toDigitsCore 10 (n + 1) n [] := rfl
  rw [hd] at hc
  exact toDigitsCore_digits (n + 1) n []
    (by intro x hx; exact absurd hx (List.not_mem_nil x)) c hc

theorem not_mem_apiPrefix (status : Nat) (q : Char) (hqd : q.isDigit = false)
    (hq1 : q ∉ ("API 返回错误 (").data) (hq2 : q ∉ ("): ").data) :
    q ∉ (apiPrefix status).data := by
  intro hmem
  unfold apiPrefix at hmem
  rw [strData_append, strData_append] at hmem
  rcases List.mem_append.mp hmem with h | h
  · rcases List.mem_append.mp h with h | h
    · exact hq1 h
    · rw [repr_digits status q h] at hqd
      exact Bool.noConfusion hqd
  · exact hq2 h

theorem strContains_apiErrorMsg (status : Nat) (body pat : String)
    (q : Char) (qs : List Char) (hpat : pat.data = q :: qs)
    (hqd : q.isDigit = false) (hq1 : q ∉ ("API 返回错误 (").data)
    (hq2 : q ∉ ("): ").data) :
    strContains (apiErrorMsg status body) pat = strContains (strTake body 100) pat := by
  unfold strContains apiErrorMsg
  rw [strData_append, hpat]
  exact containsPat_cons_append q qs _ _ (not_mem_apiPrefix status q hqd hq1 hq2)

/-! C10.  The catch-block of sendToApi pattern-matches on the error message
text, so an HTTP-status failure whose body text happens to contain a network
substring is normalized to the generic message, losing the status code. -/

/-- C10: any error from the try-block of `sendToApi` whose message contains
'Failed to fetch' or 'NetworkError' is replaced by the generic three-cause
network message; in particular a non-success HTTP response whose truncated
body text contains one of those substrings surfaces as the generic message —
a constant independent of the response, so the status code is dropped. -/
theorem sendToApi_network_substring_normalized :
    (∀ (f : FetchResult) (msg : String), sendToApiTryBlock f = Except.error msg →
      (strContains msg "Failed to fetch" = true ∨ strContains msg "NetworkError" = true) →
      sendToApi f = Except.error networkErrMsg) ∧
    (∀ r : HttpResponse, r.ok = false →
      (strContains (strTake (errorDataOf r) 100) "Failed to fetch" = true ∨
        strContains (strTake (errorDataOf r) 100) "NetworkError" = true) →
      sendToApi (FetchResult.resolved r) = Except.error networkErrMsg) := by
  have hgen : ∀ (f : FetchResult) (msg : String), sendToApiTryBlock f = Except.error msg →
      (strContains msg "Failed to fetch" = true ∨ strContains msg "NetworkError" = true) →
      sendToApi f = Except.error networkErrMsg := by
    intro f msg h hc
    unfold sendToApi
    rw [h]
    rcases hc with hc | hc <;> simp [hc]
  refine ⟨hgen, ?_⟩
  intro r hok hc
  have htb : sendToApiTryBlock (FetchResult.resolved r) =
      Except.error (apiErrorMsg r.status (errorDataOf r)) := by
    simp only [sendToApiTryBlock]
    rw [if_pos hok]
  have hF : strContains (apiErrorMsg r.status (errorDataOf r)) "Failed to fetch" =
      strContains (strTake (errorDataOf r) 100) "Failed to fetch" :=
    strContains_apiErrorMsg r.status (errorDataOf r) "Failed to fetch"
      'F' ("ailed to fetch").data (by decide) (by decide) (by decide) (by decide)
  have hN : strContains (apiErrorMsg r.status (errorDataOf r)) "NetworkError" =
      strContains (strTake (errorDataOf r) 100) "NetworkError" :=
    strContains_apiErrorMsg r.status (errorDataOf r) "NetworkError"
      'N' ("etworkError").data (by decide) (by decide) (by decide) (by decide)
  refine hgen _ _ htb ?_
  rcases hc with hc | hc
  · exact Or.inl (hF.trans hc)
  · exact Or.inr (hN.trans hc)

/-- C10 witness: the explicit 500 response with body "NetworkError" is
normalized to the generic message, which does not mention 500. -/
theorem sendToApi_network_substring_normalized_witness :
    sendToApi (FetchResult.resolved r500ne) = Except.error networkErrMsg ∧
    strContains networkErrMsg "500" = false := by
  refine ⟨sendToApi_network_substring_normalized.2 r500ne rfl (Or.inr (by decide)), ?_⟩
  decide

/-! C2.  The status-and-body error message of a non-ok response survives only
when the body text does not trip the network-substring normalization. -/

/-- C2 counterexample: for the explicit non-success response with status 500
and body text "NetworkError", `sendToApi` fails with the generic network
message, which contains neither the status code 500 nor the body text — so
the failure message promised by the claim (status code plus body excerpt) is
not produced for every non-success response. -/
theorem sendToApi_status_message_counterexample :
    r500ne.ok = false ∧ r500ne.status = 500 ∧
    sendToApi (FetchResult.resolved r500ne) = Except.error networkErrMsg ∧
    strContains networkErrMsg "500" = false := by
  refine ⟨rfl, rfl, ?_, by decide⟩
  rfl

/-- C2 (amended): for every non-success HTTP response whose first 100 body
characters contain neither 'Failed to fetch' nor 'NetworkError', `sendToApi`
fails with a message that carries the decimal status code and at most the
first 100 characters of the response body text, the placeholder text
standing in for an unreadable body. -/
theorem sendToApi_http_error_message (r : HttpResponse) (hok : r.ok = false)
    (h1 : strContains (strTake (errorDataOf r) 100) "Failed to fetch" = false)
    (h2 : strContains (strTake (errorDataOf r) 100) "NetworkError" = false) :
    sendToApi (FetchResult.resolved r) =
      Except.error (apiErrorMsg r.status (errorDataOf r)) ∧
    strContains (apiErrorMsg r.status (errorDataOf r)) (Nat.repr r.status) = true ∧
    strContains (apiErrorMsg r.status (errorDataOf r)) (strTake (errorDataOf r) 100) = true ∧
    (r.textResult = none → errorDataOf r = placeholderBodyMsg) := by
  have htb : sendToApiTryBlock (FetchResult.resolved r) =
      Except.error (apiErrorMsg r.status (errorDataOf r)) := by
    simp only [sendToApiTryBlock]
    rw [if_pos hok]
  have hF : strContains (apiErrorMsg r.status (errorDataOf r)) "Failed to fetch" = false :=
    (strContains_apiErrorMsg r.status (errorDataOf r) "Failed to fetch"
      'F' ("ailed to fetch").data (by decide) (by decide) (by decide) (by decide)).trans h1
  have hN : strContains (apiErrorMsg r.status (errorDataOf r)) "NetworkError" = false :=
    (strContains_apiErrorMsg r.status (errorDataOf r) "NetworkError"
      'N' ("etworkError").data (by decide) (by decide) (by decide) (by decide)).trans h2
  refine ⟨?_, ?_, ?_, ?_⟩
  · unfold sendToApi
    rw [htb]
    simp [hF, hN]
  · rw [strContains, containsPat_iff]
    show (Nat.repr r.status).data <:+: (apiErrorMsg r.status (errorDataOf r)).data
    unfold apiErrorMsg apiPrefix
    rw [strData_append, strData_append, strData_append]
    exact ⟨("API 返回错误 (").data,
      ("): ").data ++ (strTake (errorDataOf r) 100).data, by simp⟩
  · rw [strContains, containsPat_iff]
    show (strTake (errorDataOf r) 100).data <:+: (apiErrorMsg r.status (errorDataOf r)).data
    unfold apiErrorMsg
    rw [strData_append]
    exact ⟨(apiPrefix r.status).data, [], by simp⟩
  · intro h
    unfold errorDataOf
    rw [h]
    rfl

/-- C2 witness: the spec scenario — HTTP 500 with body "server error" — whose
failure message contains 500 and the literal body text. -/
theorem sendToApi_http_error_message_witness :
    sendToApi (FetchResult.resolved r500se) =
      Except.error (apiErrorMsg 500 "server error") ∧
    strContains (apiErrorMsg 500 "server error") "500" = true ∧
    strContains (apiErrorMsg 500 "server error") "server error" = true := by
  have h := sendToApi_http_error_message r500se rfl (by decide) (by decide)
  exact ⟨h.1, by decide, by decide⟩

/-! Tag-pattern lemmas: soundness and completeness of the regex embedding,
used by the snapshot-insertion theorem (C3). -/

theorem matchPrefixCI_eq_some : ∀ (pat l w rest : List Char),
    matchPrefixCI pat l = some (w, rest) → l = w ++ rest ∧ ciEq pat w = true
  | [], l, w, rest => by
    intro h
    simp only [matchPrefixCI, Option.some.injEq, Prod.mk.injEq] at h
    rcases h with ⟨hw, hr⟩
    subst hw
    subst hr
    exact ⟨rfl, rfl⟩
  | p :: ps, [], w, rest => by
    intro h
    exact Option.noConfusion h
  | p :: ps, c :: cs, w, rest => by
    intro h
    simp only [matchPrefixCI] at h
    by_cases hc : c.toLower = p
    · rw [if_pos hc] at h
      rcases hmr : matchPrefixCI ps cs with _ | ⟨w', rest'⟩
      · rw [hmr] at h
        exact Option.noConfusion h
      · rw [hmr] at h
        simp only [Option.some.injEq, Prod.mk.injEq] at h
        rcases h with ⟨hw, hr⟩
        subst hw
        subst hr
        obtain ⟨h1, h2⟩ := matchPrefixCI_eq_some ps cs w' rest' hmr
        constructor
        · rw [h1]
          rfl
        · simp [ciEq, hc, h2]
    · rw [if_neg hc] at h
      exact Option.noConfusion h

theorem matchPrefixCI_of_ciEq : ∀ (pat w rest : List Char),
    ciEq pat w = true → matchPrefixCI pat (w ++ rest) = some (w, rest)
  | [], [], rest => fun _ => rfl
  | [], c :: cs, rest => by
    intro h
    simp [ciEq] at h
  | p :: ps, [], rest => by
    intro h
    simp [ciEq] at h
  | p :: ps, c :: cs, rest => by
    intro h
    simp only [ciEq] at h
    by_cases hc : c.toLower = p
    · rw [if_pos hc] at h
      show matchPrefixCI (p :: ps) (c :: (cs ++ rest)) = some (c :: cs, rest)
      simp only [matchPrefixCI, if_pos hc, matchPrefixCI_of_ciEq ps cs rest h]
    · rw [if_neg hc] at h
      exact Bool.noConfusion h

theorem splitAtGt_eq_some : ∀ (l mid after : List Char),
    splitAtGt l = some (mid, after) → l = mid ++ '>' :: after ∧ '>' ∉ mid
  | [], mid, after => by
    intro h
    exact Option.noConfusion h
  | c :: cs, mid, after => by
    intro h
    simp only [splitAtGt] at h
    by_cases hc : c = '>'
    · rw [if_pos hc] at h
      simp only [Option.some.injEq, Prod.mk.injEq] at h
      rcases h with ⟨h1, h2⟩
      subst h1
      subst h2
      subst hc
      exact ⟨rfl, List.not_mem_nil _⟩
    · rw [if_neg hc] at h
      rcases hsg : splitAtGt cs with _ | ⟨mid', after'⟩
      · rw [hsg] at h
        exact Option.noConfusion h
      · rw [hsg] at h
        simp only [Option.some.injEq, Prod.mk.injEq] at h
        rcases h with ⟨h1, h2⟩
        subst h1
        subst h2
        obtain ⟨e1, e2⟩ := splitAtGt_eq_some cs mid' after' hsg
        constructor
        · rw [e1]
          rfl
        · intro hm
          rcases List.mem_cons.mp hm with h | h
          · exact hc h.symm
          · exact e2 h

theorem splitAtGt_of_not_mem : ∀ (mid after : List Char), '>' ∉ mid →
    splitAtGt (mid ++ '>' :: after) = some (mid, after)
  | [], after => by
    intro _
    simp [splitAtGt]
  | c :: mid', after => by
    intro h
    have hc : ¬(c = '>') := by
      intro hh
      exact h (by rw [hh]; exact List.mem_cons_self _ _)
    have h' : '>' ∉ mid' := fun hm => h (List.mem_cons_of_mem _ hm)
    show splitAtGt (c :: (mid' ++ '>' :: after)) = some (c :: mid', after)
    simp only [splitAtGt, if_neg hc, splitAtGt_of_not_mem mid' after h']

theorem splitAtGt_isSome_of_mem : ∀ (l : List Char), '>' ∈ l → (splitAtGt l).isSome = true
  | [], h => absurd h (List.not_mem_nil _)
  | c :: cs, h => by
    simp only [splitAtGt]
    by_cases hc : c = '>'
    · rw [if_pos hc]
      rfl
    · rw [if_neg hc]
      have hm : '>' ∈ cs := by
        rcases List.mem_cons.mp h with h1 | h1
        · exact absurd h1.symm hc
        · exact h1
      have hrec := splitAtGt_isSome_of_mem cs hm
      rcases hsg : splitAtGt cs with _ | ⟨mid, after⟩
      · rw [hsg] at hrec
        exact Bool.noConfusion hrec
      · rfl

theorem matchTagAt_eq_some (tag l m rest : List Char)
    (h : matchTagAt tag l = some (m, rest)) :
    ∃ w mid, m = '<' :: (w ++ (mid ++ ['>'])) ∧ ciEq tag w = true ∧ '>' ∉ mid ∧
      l = m ++ rest := by
  cases l with
  | nil => exact Option.noConfusion h
  | cons c cs =>
    by_cases hc : c = '<'
    · rcases hmp : matchPrefixCI tag cs with _ | ⟨w, rest1⟩
      · have heval : matchTagAt tag (c :: cs) = none := by
          simp only [matchTagAt, if_pos hc, hmp]
        rw [heval] at h
        exact Option.noConfusion h
      · rcases hsg : splitAtGt rest1 with _ | ⟨mid, after⟩
        · have heval : matchTagAt tag (c :: cs) = none := by
            simp only [matchTagAt, if_pos hc, hmp, hsg]
          rw [heval] at h
          exact Option.noConfusion h
        · have heval : matchTagAt tag (c :: cs) =
              some ('<' :: (w ++ (mid ++ ['>'])), after) := by
            simp only [matchTagAt, if_pos hc, hmp, hsg]
          rw [heval] at h
          simp only [Option.some.injEq, Prod.mk.injEq] at h
          rcases h with ⟨hm, hr⟩
          obtain ⟨hp1, hp2⟩ := matchPrefixCI_eq_some tag cs w rest1 hmp
          obtain ⟨hs1, hs2⟩ := splitAtGt_eq_some rest1 mid after hsg
          subst hm
          subst hr
          subst hc
          refine ⟨w, mid, rfl, hp2, hs2, ?_⟩
          rw [hp1, hs1]
          simp
    · have heval : matchTagAt tag (c :: cs) = none := by
        simp only [matchTagAt, if_neg hc]
      rw [heval] at h
      exact Option.noConfusion h

theorem matchTagAt_isSome_iff (tag l : List Char) :
    (matchTagAt tag l).isSome = true ↔
      ∃ w t, l = '<' :: (w ++ t) ∧ ciEq tag w = true ∧ '>' ∈ t := by
  constructor
  · intro h
    rcases hmt : matchTagAt tag l with _ | ⟨m, rest⟩
    · rw [hmt] at h
      exact Bool.noConfusion h
    · obtain ⟨w, mid, hm, hci, hgt, hl⟩ := matchTagAt_eq_some tag l m rest hmt
      refine ⟨w, mid ++ '>' :: rest, ?_, hci, ?_⟩
      · rw [hl, hm]
        simp
      · simp
  · rintro ⟨w, t, hl, hci, hgt⟩
    subst hl
    have hrec := splitAtGt_isSome_of_mem t hgt
    rcases hsg : splitAtGt t with _ | ⟨mid, after⟩
    · rw [hsg] at hrec
      exact Bool.noConfusion hrec
    · have heval : matchTagAt tag ('<' :: (w ++ t)) =
          some ('<' :: (w ++ (mid ++ ['>'])), after) := by
        simp only [matchTagAt, if_pos (rfl : ('<' : Char) = '<'),
          matchPrefixCI_of_ciEq tag w t hci, hsg, if_true]
      rw [heval]
      rfl

theorem findTag_eq_some : ∀ (tag l p m s : List Char),
    findTag tag l = some (p, m, s) →
    l = p ++ m ++ s ∧
      ∃ w mid, m = '<' :: (w ++ (mid ++ ['>'])) ∧ ciEq tag w = true ∧ '>' ∉ mid
  | tag, [], p, m, s => by
    intro h
    exact Option.noConfusion h
  | tag, c :: cs, p, m, s => by
    intro h
    rcases hmt : matchTagAt tag (c :: cs) with _ | ⟨m', rest⟩
    · rcases hft : findTag tag cs with _ | ⟨⟨p', m'', s'⟩⟩
      · have heval : findTag tag (c :: cs) = none := by
          simp only [findTag, hmt, hft]
        rw [heval] at h
        exact Option.noConfusion h
      · have heval : findTag tag (c :: cs) = some (c :: p', m'', s') := by
          simp only [findTag, hmt, hft]
        rw [heval] at h
        simp only [Option.some.injEq, Prod.mk.injEq] at h
        rcases h with ⟨h1, h2, h3⟩
        subst h1
        subst h2
        subst h3
        obtain ⟨hl, hw⟩ := findTag_eq_some tag cs p' m'' s' hft
        refine ⟨?_, hw⟩
        rw [List.cons_append, hl]
        simp
    · have heval : findTag tag (c :: cs) = some ([], m', rest) := by
        simp only [findTag, hmt]
      rw [heval] at h
      simp only [Option.some.injEq, Prod.mk.injEq] at h
      rcases h with ⟨h1, h2, h3⟩
      subst h1
      subst h2
      subst h3
      obtain ⟨w, mid, hm, hci, hgt, hl⟩ := matchTagAt_eq_some tag (c :: cs) m' rest hmt
      refine ⟨?_, w, mid, hm, hci, hgt⟩
      rw [hl]
      simp

theorem findTag_isSome_iff : ∀ (tag l : List Char),
    (findTag tag l).isSome = true ↔
      ∃ a w t, l = a ++ '<' :: (w ++ t) ∧ ciEq tag w = true ∧ '>' ∈ t
  | tag, [] => by
    constructor
    · intro h
      exact Bool.noConfusion h
    · rintro ⟨a, w, t, h1, _, _⟩
      exact absurd h1 (by cases a <;> simp)
  | tag, c :: cs => by
    constructor
    · intro h
      rcases hmt : matchTagAt tag (c :: cs) with _ | ⟨m', rest⟩
      · rcases hft : findTag tag cs with _ | ⟨⟨p', m'', s'⟩⟩
        · have heval : findTag tag (c :: cs) = none := by
            simp only [findTag, hmt, hft]
          rw [heval] at h
          exact Bool.noConfusion h
        · have hcs : (findTag tag cs).isSome = true := by
            rw [hft]
            rfl
          obtain ⟨a, w, t, h1, h2, h3⟩ := (findTag_isSome_iff tag cs).mp hcs
          refine ⟨c :: a, w, t, ?_, h2, h3⟩
          rw [List.cons_append, h1]
      · have hsome : (matchTagAt tag (c :: cs)).isSome = true := by
          rw [hmt]
          rfl
        obtain ⟨w, t, h1, h2, h3⟩ := (matchTagAt_isSome_iff tag (c :: cs)).mp hsome
        refine ⟨[], w, t, ?_, h2, h3⟩
        rw [h1]
        rfl
    · rintro ⟨a, w, t, h1, h2, h3⟩
      rcases hmt : matchTagAt tag (c :: cs) with _ | ⟨m', rest⟩
      · cases a with
        | nil =>
          exfalso
          have hsome : (matchTagAt tag (c :: cs)).isSome = true := by
            refine (matchTagAt_isSome_iff tag (c :: cs)).mpr ⟨w, t, ?_, h2, h3⟩
            simpa using h1
          rw [hmt] at hsome
          exact Bool.noConfusion hsome
        | cons a0 a' =>
          rw [List.cons_append] at h1
          injection h1 with h1a h1b
          have hcs : (findTag tag cs).isSome = true :=
            (findTag_isSome_iff tag cs).mpr ⟨a', w, t, h1b, h2, h3⟩
          rcases hft : findTag tag cs with _ | ⟨⟨p', m'', s'⟩⟩
          · rw [hft] at hcs
            exact Bool.noConfusion hcs
          · have heval : findTag tag (c :: cs) = some (c :: p', m'', s') := by
              simp only [findTag, hmt, hft]
            rw [heval]
            rfl
      · have heval : findTag tag (c :: cs) = some ([], m', rest) := by
          simp only [findTag, hmt]
        rw [heval]
        rfl

theorem findTag_append_left : ∀ (tag x y p m s : List Char),
    (∀ x1 x2, x = x1 ++ x2 → x2 ≠ [] → matchTagAt tag (x2 ++ y) = none) →
    findTag tag y = some (p, m, s) →
    findTag tag (x ++ y) = some (x ++ p, m, s)
  | tag, [], y, p, m, s => by
    intro _ h
    simpa using h
  | tag, c :: x', y, p, m, s => by
    intro hno h
    have h0 : matchTagAt tag (c :: (x' ++ y)) = none := by
      have := hno [] (c :: x') rfl (by simp)
      rw [List.cons_append] at this
      exact this
    have hrec := findTag_append_left tag x' y p m s
      (fun x1 x2 hx hne => hno (c :: x1) x2 (by rw [hx]; rfl) hne) h
    have heval : findTag tag ((c :: x') ++ y) = some (c :: (x' ++ p), m, s) := by
      rw [List.cons_append]
      simp only [findTag, h0, hrec]
    rw [heval, List.cons_append]

theorem ciEq_mem : ∀ (pat w : List Char), ciEq pat w = true → ∀ c ∈ w, c.toLower ∈ pat
  | [], [] => by
    intro _ c hc
    exact absurd hc (List.not_mem_nil c)
  | [], c0 :: cs => by
    intro h
    simp [ciEq] at h
  | p :: ps, [] => by
    intro h
    simp [ciEq] at h
  | p :: ps, c0 :: cs => by
    intro h c hc
    simp only [ciEq] at h
    by_cases hcp : c0.toLower = p
    · rw [if_pos hcp] at h
      rcases List.mem_cons.mp hc with rfl | hmem
      · rw [hcp]
        exact List.mem_cons_self _ _
      · exact List.mem_cons_of_mem _ (ciEq_mem ps cs h c hmem)
    · rw [if_neg hcp] at h
      exact Bool.noConfusion h

theorem mem_of_append_singleton (x1 x2 l : List Char) (c : Char)
    (h : x1 ++ x2 = l ++ [c]) (hne : x2 ≠ []) : c ∈ x2 := by
  rcases List.eq_nil_or_concat x2 with rfl | ⟨y, d, rfl⟩
  · exact absurd rfl hne
  · rw [List.concat_eq_append, ← List.append_assoc] at h
    obtain ⟨-, h2⟩ := List.append_inj' h rfl
    have hdc : d = c := by
      injection h2
    subst hdc
    simp

/-- The five characters of a (case-insensitive) `<base` occurrence are
neither '>' nor a newline. -/
theorem base_occ_chars (w : List Char) (h : ciEq "base".data w = true) :
    '>' ∉ ('<' :: w) ∧ '\n' ∉ ('<' :: w) := by
  have hmem := ciEq_mem "base".data w h
  constructor
  · intro hx
    rcases List.mem_cons.mp hx with h1 | h1
    · exact absurd h1 (by decide)
    · exact absurd (hmem _ h1) (by decide)
  · intro hx
    rcases List.mem_cons.mp hx with h1 | h1
    · exact absurd h1 (by decide)
    · exact absurd (hmem _ h1) (by decide)

theorem findTag_sub_length (tag l p m s : List Char)
    (h : findTag tag l = some (p, m, s)) : s.length < l.length := by
  obtain ⟨hl, w, mid, hm, -, -⟩ := findTag_eq_some tag l p m s h
  subst hl
  subst hm
  simp only [List.length_append, List.length_cons]
  omega

theorem countTagFuel_stable (f : Nat) : ∀ (tag l : List Char),
    l.length ≤ f → countTagFuel tag f l = countTagFuel tag l.length l := by
  induction f using Nat.strong_induction_on with
  | _ f ih =>
    intro tag l hle
    cases f with
    | zero =>
      have h0 : l.length = 0 := Nat.le_zero.mp hle
      rw [h0]
    | succ f' =>
      rcases hft : findTag tag l with _ | ⟨⟨p, m, s⟩⟩
      · cases hl : l.length with
        | zero => simp [countTagFuel, hft]
        | succ k => simp [countTagFuel, hft]
      · have hs : s.length < l.length := findTag_sub_length tag l p m s hft
        cases hl : l.length with
        | zero => omega
        | succ k =>
          have h1 : countTagFuel tag (Nat.succ f') l = 1 + countTagFuel tag f' s := by
            simp [countTagFuel, hft]
          have h2 : countTagFuel tag (Nat.succ k) l = 1 + countTagFuel tag k s := by
            simp [countTagFuel, hft]
          rw [h1, h2, ih f' (by omega) tag s (by omega), ih k (by omega) tag s (by omega)]

theorem countTag_eq_some (tag l p m s : List Char)
    (h : findTag tag l = some (p, m, s)) :
    countTag tag l = 1 + countTag tag s := by
  have hs : s.length < l.length := findTag_sub_length tag l p m s h
  unfold countTag
  cases hl : l.length with
  | zero => omega
  | succ k =>
    have h2 : countTagFuel tag (Nat.succ k) l = 1 + countTagFuel tag k s := by
      simp [countTagFuel, h]
    rw [h2, countTagFuel_stable k tag s (by omega)]

theorem countTag_eq_none (tag l : List Char) (h : findTag tag l = none) :
    countTag tag l = 0 := by
  unfold countTag
  cases hl : l.length with
  | zero => rfl
  | succ k => simp [countTagFuel, h]

/-! C3.  Base-directive insertion after the head marker. -/

/-- C3: for a document containing a head-opening marker and no base
directive, and a well-formed location (no '>' in its components), the
snapshot contains exactly one base directive, inserted (preceded by the
newline of the insertion text) immediately after the first head marker, and
its href is scheme://host/path — computed from protocol, host and pathname
only, hence with query and fragment stripped. -/
theorem generateHtmlSnapshot_inserts_base (loc : Location) (html : String)
    (hgt : '>' ∉ (baseHrefStr loc).data)
    (hbase : testTag "base" html = false)
    (hhead : testTag "head" html = true) :
    ∃ p m s, findTag "head".data html.data = some (p, m, s) ∧
      (generateHtmlSnapshot loc html).data =
        p ++ m ++ ('\n' :: (baseDirective loc).data) ++ s ∧
      countTag "base".data (generateHtmlSnapshot loc html).data = 1 ∧
      baseDirective loc = "<base href=\"" ++ baseHrefStr loc ++ "\">" ∧
      baseHrefStr loc = loc.protocol ++ "//" ++ loc.host ++ loc.pathname ∧
      (∀ q fr, baseHrefStr { loc with search := q, hash := fr } = baseHrefStr loc) := by
  have hh : (findTag "head".data html.data).isSome = true := hhead
  rcases hft : findTag "head".data html.data with _ | ⟨⟨p, m, s⟩⟩
  · rw [hft] at hh
    exact Bool.noConfusion hh
  obtain ⟨hdecomp, wh, midh, hmh, hcih, hgth⟩ := findTag_eq_some _ _ _ _ _ hft
  have hgen : generateHtmlSnapshot loc html =
      replaceFirstTag "head" html ("\n" ++ baseDirective loc) := by
    simp [generateHtmlSnapshot, hbase, hhead]
  have hrep : generateHtmlSnapshot loc html =
      ⟨p ++ m ++ ("\n" ++ baseDirective loc).data ++ s⟩ := by
    rw [hgen]
    simp only [replaceFirstTag, hft]
  have hins : ("\n" ++ baseDirective loc).data = '\n' :: (baseDirective loc).data := by
    rw [strData_append]
    rfl
  have hdata1 : (generateHtmlSnapshot loc html).data =
      p ++ m ++ ('\n' :: (baseDirective loc).data) ++ s := by
    rw [hrep, ← hins]
  have hci : ciEq "base".data "base".data = true := by decide
  have hmid : '>' ∉ ((" href=\"").data ++ (baseHrefStr loc).data ++ ['"']) := by
    intro hx
    rcases List.mem_append.mp hx with hx | hx
    · rcases List.mem_append.mp hx with hx | hx
      · exact absurd hx (by decide)
      · exact hgt hx
    · exact absurd hx (by decide)
  have hDfull : (baseDirective loc).data =
      '<' :: ("base".data ++
        (((" href=\"").data ++ (baseHrefStr loc).data ++ ['"']) ++ ['>'])) := by
    unfold baseDirective
    rw [strData_append, strData_append]
    rw [show ("<base href=\"").data = '<' :: ("base".data ++ (" href=\"").data) from
      by decide]
    rw [show ("\">").data = ['"', '>'] from by decide]
    simp [List.append_assoc]
  have hconsD : (baseDirective loc).data ++ s =
      '<' :: ("base".data ++
        (((" href=\"").data ++ (baseHrefStr loc).data ++ ['"']) ++ '>' :: s)) := by
    rw [hDfull]
    simp [List.append_assoc]
  have heval : matchTagAt "base".data
      ('<' :: ("base".data ++
        (((" href=\"").data ++ (baseHrefStr loc).data ++ ['"']) ++ '>' :: s))) =
      some ('<' :: ("base".data ++
        (((" href=\"").data ++ (baseHrefStr loc).data ++ ['"']) ++ ['>'])), s) := by
    simp only [matchTagAt, if_pos (rfl : ('<' : Char) = '<'), if_true,
      matchPrefixCI_of_ciEq "base".data "base".data
        (((" href=\"").data ++ (baseHrefStr loc).data ++ ['"']) ++ '>' :: s) hci,
      splitAtGt_of_not_mem ((" href=\"").data ++ (baseHrefStr loc).data ++ ['"']) s hmid]
  have hmatch : matchTagAt "base".data ((baseDirective loc).data ++ s) =
      some ((baseDirective loc).data, s) := by
    rw [hconsD, hDfull]
    exact heval
  have h1 : findTag "base".data ((baseDirective loc).data ++ s) =
      some ([], (baseDirective loc).data, s) := by
    rw [hconsD] at hmatch
    rw [hconsD]
    simp only [findTag, hmatch]
  have h0 : matchTagAt "base".data ('\n' :: ((baseDirective loc).data ++ s)) = none := by
    simp only [matchTagAt, if_neg (by decide : ¬('\n' = '<'))]
  have hfty : findTag "base".data ('\n' :: ((baseDirective loc).data ++ s)) =
      some (['\n'], (baseDirective loc).data, s) := by
    have e1 : findTag "base".data ('\n' :: ((baseDirective loc).data ++ s)) =
        match matchTagAt "base".data ('\n' :: ((baseDirective loc).data ++ s)) with
        | some (mt, rest) => some ([], mt, rest)
        | none =>
          match findTag "base".data ((baseDirective loc).data ++ s) with
          | some (pp, mm, ss) => some ('\n' :: pp, mm, ss)
          | none => none := rfl
    rw [e1, h0, h1]
  have hnomatch : ∀ x1 x2, p ++ m = x1 ++ x2 → x2 ≠ [] →
      matchTagAt "base".data (x2 ++ ('\n' :: ((baseDirective loc).data ++ s))) = none := by
    intro x1 x2 hx hne
    rcases hmt2 : matchTagAt "base".data
        (x2 ++ ('\n' :: ((baseDirective loc).data ++ s))) with _ | ⟨mm, rr⟩
    · rfl
    · exfalso
      have hsome : (matchTagAt "base".data
          (x2 ++ ('\n' :: ((baseDirective loc).data ++ s)))).isSome = true := by
        rw [hmt2]
        rfl
      obtain ⟨w, t, heq, hciw, hgtt⟩ := (matchTagAt_isSome_iff _ _).mp hsome
      obtain ⟨hgtw, hnlw⟩ := base_occ_chars w hciw
      have hpm : p ++ m = (p ++ ('<' :: (wh ++ midh))) ++ ['>'] := by
        rw [hmh]
        simp [List.append_assoc]
      have hgtx2 : '>' ∈ x2 :=
        mem_of_append_singleton x1 x2 _ '>' (by rw [← hx, hpm]) hne
      cases x2 with
      | nil => exact hne rfl
      | cons x20 x2' =>
        rw [List.cons_append] at heq
        injection heq with ha hb
        subst ha
        rcases List.append_eq_append_iff.mp hb with ⟨e, he1, he2⟩ | ⟨e, he1, he2⟩
        · cases e with
          | nil =>
            rw [List.append_nil] at he1
            subst he1
            exact hgtw hgtx2
          | cons e0 e' =>
            rw [List.cons_append] at he2
            injection he2 with hc1 hc2
            subst hc1
            have hnl : '\n' ∈ w := by
              rw [he1]
              exact List.mem_append.mpr (Or.inr (List.mem_cons_self _ _))
            exact hnlw (List.mem_cons_of_mem _ hnl)
        · have hgte : '>' ∈ e := by
            rcases List.mem_cons.mp hgtx2 with h1 | h1
            · exact absurd h1 (by decide)
            · rw [he1] at h1
              rcases List.mem_append.mp h1 with h1 | h1
              · exact absurd (List.mem_cons_of_mem '<' h1) hgtw
              · exact h1
          have hocc : (findTag "base".data html.data).isSome = true := by
            refine (findTag_isSome_iff _ _).mpr
              ⟨x1, w, e ++ s, ?_, hciw, List.mem_append.mpr (Or.inl hgte)⟩
            rw [hdecomp]
            have h2 : p ++ m = x1 ++ '<' :: (w ++ e) := by
              rw [hx, he1]
            rw [h2]
            simp [List.append_assoc]
          have hfalse : (findTag "base".data html.data).isSome = false := hbase
          rw [hfalse] at hocc
          exact Bool.noConfusion hocc
  have hbig : findTag "base".data
      ((p ++ m) ++ ('\n' :: ((baseDirective loc).data ++ s))) =
      some ((p ++ m) ++ ['\n'], (baseDirective loc).data, s) :=
    findTag_append_left _ _ _ _ _ _ hnomatch hfty
  have hshape : (generateHtmlSnapshot loc html).data =
      (p ++ m) ++ ('\n' :: ((baseDirective loc).data ++ s)) := by
    rw [hdata1]
    simp [List.append_assoc]
  have hnos : findTag "base".data s = none := by
    rcases hfs : findTag "base".data s with _ | ⟨⟨ps, ms, ss⟩⟩
    · rfl
    · exfalso
      have hsome : (findTag "base".data s).isSome = true := by
        rw [hfs]
        rfl
      obtain ⟨a, w, t, hseq, hciw, hgtw⟩ := (findTag_isSome_iff _ _).mp hsome
      have hocc : (findTag "base".data html.data).isSome = true := by
        refine (findTag_isSome_iff _ _).mpr ⟨p ++ m ++ a, w, t, ?_, hciw, hgtw⟩
        rw [hdecomp, hseq]
        simp [List.append_assoc]
      have hfalse : (findTag "base".data html.data).isSome = false := hbase
      rw [hfalse] at hocc
      exact Bool.noConfusion hocc
  have hcount : countTag "base".data (generateHtmlSnapshot loc html).data = 1 := by
    rw [hshape, countTag_eq_some _ _ _ _ _ hbig, countTag_eq_none _ _ hnos]
  exact ⟨p, m, s, rfl, hdata1, hcount, rfl, rfl, fun q fr => rfl⟩

/-- C3 witness: a concrete document with a head marker and no base
directive, captured at a concrete location with query and fragment. -/
theorem generateHtmlSnapshot_inserts_base_witness :
    '>' ∉ (baseHrefStr demoLoc).data ∧
    testTag "base" demoHtmlHead = false ∧
    testTag "head" demoHtmlHead = true ∧
    countTag "base".data (generateHtmlSnapshot demoLoc demoHtmlHead).data = 1 := by
  refine ⟨by decide, by decide, by decide, ?_⟩
  obtain ⟨p, m, s, hft, hdata, hcount, hdir, hhref, hstrip⟩ :=
    generateHtmlSnapshot_inserts_base demoLoc demoHtmlHead
      (by decide) (by decide) (by decide)
  exact hcount

end WebCut
